import Mathlib

set_option maxHeartbeats 1000000
set_option maxRecDepth 8192

/-!
Verification of the usda-alveograph-exporter core against its specification.

The data model (src/data.rs) and the tabular exporter (src/process.rs) are
embedded shallowly below.  The exporter writes cells through the external
rust_xlsxwriter library; the workbook/worksheet state that library holds is
modelled as explicit values (a list of worksheets, each holding its name, the
ordered list of cell writes made to it, and its explicitly-set column widths),
with the sheet-name collision failure of set_name modelled as described in the
specification.  Machine-integer behaviour of the source is kept explicit: the
source casts the column index to u16 (`index as u16` and then a u16 addition
of 1), which the embedding renders as arithmetic modulo 65536 on Nat.
-/

namespace Alveo

/-- Mirrors struct Row in src/data.rs: a single measurement,
with a header and a 64-bit float value. -/
structure Row where
  header : String
  value : Float
  deriving Inhabited

/-- Mirrors Row::new in src/data.rs: stores the given header and value. -/
def Row.new (header : String) (value : Float) : Row := ⟨header, value⟩

/-- Mirrors struct Data in src/data.rs: all the data from one file. -/
structure Data where
  test_name : String
  row_data : List Row
  deriving Inhabited

/-- Mirrors Data::new in src/data.rs: given test_name, empty row_data. -/
def Data.new (test_name : String) : Data := ⟨test_name, []⟩

/-- Mirrors Data::new1 in src/data.rs: given test_name and row_data. -/
def Data.new1 (test_name : String) (row_data : List Row) : Data := ⟨test_name, row_data⟩

/-- Cell formatting state, mirroring the rust_xlsxwriter Format values built in
write_output_to_sheet: set_bold, set_align(FormatAlign::Center), and
set_num_format. -/
structure CellFormat where
  bold : Bool := false
  align_center : Bool := false
  num_format : Option String := none
  deriving DecidableEq, Inhabited

/-- The format built at src/process.rs line 26:
Format::new().set_bold().set_align(FormatAlign::Center). -/
def boldFormat : CellFormat := { bold := true, align_center := true }

/-- The format built at src/process.rs line 33:
Format::new().set_align(FormatAlign::Center). -/
def test_name_format : CellFormat := { align_center := true }

/-- The format built at src/process.rs line 34:
Format::new().set_num_format("0.00").set_align(FormatAlign::Center). -/
def default_format : CellFormat := { num_format := some "0.00", align_center := true }

/-- Content written to a cell: either a string (write_with_format) or a
number (write_number_with_format). -/
inductive CellContent where
  | str (s : String)
  | num (v : Float)

/-- One cell write made against the worksheet, in program order. -/
structure CellWrite where
  row : Nat
  col : Nat
  content : CellContent
  fmt : CellFormat

/-- The column index the exporter computes for entry i of a row_data list:
the source casts i to u16 and adds 1 in u16 arithmetic
(src/process.rs lines 29 to 30 and 39 to 40), i.e. (i mod 2^16 + 1) mod 2^16. -/
def colOf (i : Nat) : Nat := (i % 65536 + 1) % 65536

/-- The header-row writes of src/process.rs lines 28 to 31: for each
(index, row) of records[0].row_data, write header text at row 0,
column colOf index, bold and centered. -/
def headerWrites (rows : List Row) : List CellWrite :=
  rows.enum.map fun p => ⟨0, colOf p.1, CellContent.str p.2.header, boldFormat⟩

/-- The writes made for one Data record at worksheet row row_num
(src/process.rs lines 37 to 41): the test name at column 0, then each value at
column colOf of its index, number-formatted to two decimals. -/
def recordWrites (row_num : Nat) (d : Data) : List CellWrite :=
  ⟨row_num, 0, CellContent.str d.test_name, test_name_format⟩ ::
    d.row_data.enum.map fun p => ⟨row_num, colOf p.1, CellContent.num p.2.value, default_format⟩

/-- The writes of the data-row loop of src/process.rs lines 35 to 43:
row_num starts at 1 and increases by 1 per record. -/
def dataWrites : Nat → List Data → List CellWrite
  | _, [] => []
  | n, d :: rest => recordWrites n d ++ dataWrites (n + 1) rest

/-- Worksheet state: its name, the ordered cell writes made to it, and the
explicitly set column widths (pairs of column index and width). -/
structure Worksheet where
  name : String
  writes : List CellWrite
  colWidths : List (Nat × Nat)
  deriving Inhabited

/-- Workbook state: the worksheets it holds, in creation order. -/
structure Workbook where
  sheets : List Worksheet

/-- Mirrors get_workbook in src/process.rs: Workbook::new(), no sheets. -/
def Workbook.new : Workbook := ⟨[]⟩

/-- The error returned by the external set_name call on a sheet-name
collision, called ExportError::DuplicateSheetName in the specification. -/
inductive XlsxError where
  | DuplicateSheetName
  deriving DecidableEq

/-- The default name the library gives the sheet added by add_worksheet:
"Sheet" followed by its 1-based position. -/
def defaultSheetName (wb : Workbook) : String :=
  "Sheet" ++ toString (wb.sheets.length + 1)

/-- Mirrors write_output_to_sheet in src/process.rs.  A worksheet is first
added (default name), then renamed to sheet_name; a name collision with an
existing sheet makes set_name fail, and the error propagates with the added
sheet left in the workbook.  If data is empty the function returns Ok at once
(line 23), before any cell write and before the set_column_width call of
line 45.  Otherwise the header row, the data rows, and the column-0 width
of 20 are recorded.  The mutated workbook is returned together with the
error value, mirroring the &mut Workbook parameter. -/
def write_output_to_sheet (wb : Workbook) (data : List Data) (sheet_name : String) :
    Workbook × Option XlsxError :=
  if wb.sheets.any (fun s => s.name == sheet_name) then
    (⟨wb.sheets ++ [⟨defaultSheetName wb, [], []⟩]⟩, some XlsxError.DuplicateSheetName)
  else
    match data with
    | [] => (⟨wb.sheets ++ [⟨sheet_name, [], []⟩]⟩, none)
    | first :: rest =>
      (⟨wb.sheets ++ [⟨sheet_name,
        ⟨0, 0, CellContent.str "test-name", boldFormat⟩ ::
          (headerWrites first.row_data ++ dataWrites 1 (first :: rest)),
        [(0, 20)]⟩]⟩, none)

/-- The single worksheet produced by exporting into a fresh workbook. -/
def freshSheet (data : List Data) (sheet_name : String) : Worksheet :=
  ((write_output_to_sheet Workbook.new data sheet_name).1).sheets.headI

/-- The predicate selecting the writes aimed at cell (r, c). -/
def cellPred (r c : Nat) (w : CellWrite) : Bool :=
  w.row == r && w.col == c

/-- The final content of cell (r, c): the last write to it wins, as in the
spreadsheet library. -/
def cellAt (ws : Worksheet) (r c : Nat) : Option CellWrite :=
  (ws.writes.filter (cellPred r c)).getLast?

/-- All writes aimed at worksheet row r, in program order. -/
def rowFilter (ws : Worksheet) (r : Nat) : List CellWrite :=
  ws.writes.filter (fun w => w.row == r)

/-- Modelled from the spec: the ConfigStore record of the missing
configstore module (declared in src/lib.rs, used in src/main.rs but absent
from the provided sources).  Section 6 requires at minimum a
read_start_header string marker. -/
structure ConfigStore where
  read_start_header : String

/-- Modelled from the spec: the parse-failure taxonomy of section 7 for the
record parser. -/
inductive ParseError where
  | MarkerNotFound
  | MalformedRow (line : Nat) (content : String)

/-- Modelled from the spec: the line scan for the configured start marker
(section 4.1).  Scans lines in order, counting line numbers from the given
start; returns the marker line number and the remaining lines, or none when
the marker never occurs. -/
def scanToMarker (marker : String) : Nat → List String → Option (Nat × List String)
  | _, [] => none
  | ln, l :: rest =>
    if l == marker then some (ln, rest) else scanToMarker marker (ln + 1) rest

/-- Modelled from the spec: a blank line, one whose characters are all
whitespace. -/
def isBlankLine (l : String) : Bool := l.data.all Char.isWhitespace

/-- Modelled from the spec: the per-line loop of the record parser
(section 4.1).  Blank lines are skipped; each non-blank line must decompose
into a label and a numeric value through the pluggable tokenization rule
decomp (section 9 leaves the exact rule open); a line that does not decompose
fails the whole file with MalformedRow. -/
def parseRows (decomp : String → Option (String × Float)) :
    Nat → List String → Except ParseError (List Row)
  | _, [] => Except.ok []
  | ln, l :: rest =>
    if isBlankLine l then parseRows decomp (ln + 1) rest
    else
      match decomp l with
      | some p =>
        match parseRows decomp (ln + 1) rest with
        | Except.ok rows => Except.ok (Row.new p.1 p.2 :: rows)
        | Except.error e => Except.error e
      | none => Except.error (ParseError.MalformedRow ln l)

/-- Modelled from the spec: test_name derivation of section 4.1, the file
stem with the extension stripped. -/
def fileStem (file_name : String) : String :=
  let parts := file_name.splitOn "."
  if parts.length ≤ 1 then file_name else String.intercalate "." parts.dropLast

/-- Modelled from the spec: read_data_from_file, the record parser called in
src/main.rs line 61 but absent from the provided sources.  Raw text is
represented as its list of lines.  Everything before and including the first
marker line is discarded; a missing marker fails with MarkerNotFound; the
lines after the marker are parsed into rows in file order (section 4.1). -/
def read_data_from_file (decomp : String → Option (String × Float))
    (file_name : String) (lines : List String) (config : ConfigStore) :
    Except ParseError Data :=
  match scanToMarker config.read_start_header 1 lines with
  | none => Except.error ParseError.MarkerNotFound
  | some st =>
    match parseRows decomp (st.1 + 1) st.2 with
    | Except.ok rows => Except.ok ⟨fileStem file_name, rows⟩
    | Except.error e => Except.error e

/-- The Row a well-formed line contributes, given the tokenization rule. -/
def rowOfLine (decomp : String → Option (String × Float)) (l : String) : Option Row :=
  (decomp l).map fun p => Row.new p.1 p.2

/-- Proof-side regrouping of one enumerated loop over a row_data list: the
writes produced for rows, starting at entry index k, all at worksheet row R,
with content given by mk. -/
def rowWritesFrom (R : Nat) (mk : Row → CellContent) (fm : CellFormat) (k : Nat) :
    List Row → List CellWrite
  | [] => []
  | x :: xs => ⟨R, colOf k, mk x, fm⟩ :: rowWritesFrom R mk fm (k + 1) xs

theorem enumMap_eq_rowWritesFrom (R : Nat) (mk : Row → CellContent) (fm : CellFormat) :
    ∀ (rows : List Row) (k : Nat),
      (List.enumFrom k rows).map (fun p => (⟨R, colOf p.1, mk p.2, fm⟩ : CellWrite))
        = rowWritesFrom R mk fm k rows := by
  intro rows
  induction rows with
  | nil => intro k; rfl
  | cons x xs ih => intro k; simp [List.enumFrom, rowWritesFrom, ih]

theorem headerWrites_eq (rows : List Row) :
    headerWrites rows
      = rowWritesFrom 0 (fun r => CellContent.str r.header) boldFormat 0 rows := by
  have h := enumMap_eq_rowWritesFrom 0 (fun r => CellContent.str r.header) boldFormat rows 0
  exact h

theorem recordWrites_eq (n : Nat) (d : Data) :
    recordWrites n d
      = ⟨n, 0, CellContent.str d.test_name, test_name_format⟩ ::
          rowWritesFrom n (fun r => CellContent.num r.value) default_format 0 d.row_data := by
  have h := enumMap_eq_rowWritesFrom n (fun r => CellContent.num r.value) default_format
    d.row_data 0
  unfold recordWrites
  exact congrArg _ h

theorem rowWritesFrom_row_col {R : Nat} {mk : Row → CellContent} {fm : CellFormat} :
    ∀ {rows : List Row} {k : Nat} {w : CellWrite}, w ∈ rowWritesFrom R mk fm k rows →
      w.row = R ∧ ∃ i, i < rows.length ∧ w.col = colOf (k + i) := by
  intro rows
  induction rows with
  | nil => intro k w h; cases h
  | cons x xs ih =>
    intro k w h
    rcases List.mem_cons.mp h with h1 | h2
    · subst h1; exact ⟨rfl, 0, by simp, by simp⟩
    · obtain ⟨hr, i, hi, hc⟩ := ih h2
      refine ⟨hr, i + 1, by simp only [List.length_cons]; omega, ?_⟩
      rw [hc]; congr 1; omega

theorem filter_nil_of_pred_false {p : CellWrite → Bool} {l : List CellWrite}
    (h : ∀ w ∈ l, p w = false) : l.filter p = [] :=
  List.filter_eq_nil_iff.mpr (by intro a ha; simp [h a ha])

theorem cellPred_eq_true {r c : Nat} {w : CellWrite} :
    cellPred r c w = true ↔ (w.row = r ∧ w.col = c) := by
  simp [cellPred]

theorem rowWritesFrom_filter_ne_row {R mk fm k r c : _} {rows : List Row} (h : r ≠ R) :
    (rowWritesFrom R mk fm k rows).filter (cellPred r c) = [] := by
  apply filter_nil_of_pred_false
  intro w hw
  obtain ⟨hr, -⟩ := rowWritesFrom_row_col hw
  cases hpw : cellPred r c w with
  | false => rfl
  | true => exact absurd (cellPred_eq_true.mp hpw).1 (by rw [hr]; exact fun he => h he.symm)

theorem getLast?_isSome_of_ne_nil {α : Type} {l : List α} (h : l ≠ []) :
    ∃ v, l.getLast? = some v := by
  cases l with
  | nil => exact absurd rfl h
  | cons b bs => exact ⟨_, rfl⟩

theorem getLast?_cons_of_ne_nil {α : Type} (a : α) {l : List α} (h : l ≠ []) :
    (a :: l).getLast? = l.getLast? := by
  obtain ⟨v, hv⟩ := getLast?_isSome_of_ne_nil h
  show ([a] ++ l).getLast? = l.getLast?
  rw [List.getLast?_append, hv]
  rfl

theorem rowWritesFrom_filter_getLast {R : Nat} {mk : Row → CellContent} {fm : CellFormat} :
    ∀ (rows : List Row) (k c j : Nat) (hj : j < rows.length),
      colOf (k + j) = c →
      (∀ i, j < i → i < rows.length → colOf (k + i) ≠ c) →
      ((rowWritesFrom R mk fm k rows).filter (cellPred R c)).getLast?
        = some ⟨R, c, mk (rows.get ⟨j, hj⟩), fm⟩ := by
  intro rows
  induction rows with
  | nil => intro k c j hj; exact absurd hj (Nat.not_lt_zero j)
  | cons x xs ih =>
    intro k c j hj hcol hafter
    match j with
    | 0 =>
      have hx : cellPred R c (⟨R, colOf k, mk x, fm⟩ : CellWrite) = true := by
        apply cellPred_eq_true.mpr
        exact ⟨rfl, by simpa using hcol⟩
      have htail : (rowWritesFrom R mk fm (k + 1) xs).filter (cellPred R c) = [] := by
        apply filter_nil_of_pred_false
        intro w hw
        obtain ⟨hr, i, hi, hc⟩ := rowWritesFrom_row_col hw
        cases hpw : cellPred R c w with
        | false => rfl
        | true =>
          obtain ⟨-, hcw⟩ := cellPred_eq_true.mp hpw
          refine absurd (hc ▸ hcw : colOf (k + 1 + i) = c) ?_
          have := hafter (i + 1) (Nat.succ_pos i)
            (by simp only [List.length_cons]; omega)
          intro hcc
          exact this (by rw [show k + (i + 1) = k + 1 + i by omega]; exact hcc)
      rw [rowWritesFrom, List.filter_cons_of_pos hx, htail]
      have : colOf k = c := by simpa using hcol
      simp [this]
    | j' + 1 =>
      have hj2 : j' < xs.length := by simpa using Nat.lt_of_succ_lt_succ hj
      have hcol2 : colOf (k + 1 + j') = c := by
        rw [show k + 1 + j' = k + (j' + 1) by omega]; exact hcol
      have hafter2 : ∀ i, j' < i → i < xs.length → colOf (k + 1 + i) ≠ c := by
        intro i hgt hlt
        rw [show k + 1 + i = k + (i + 1) by omega]
        exact hafter (i + 1) (by omega) (by simpa using Nat.succ_lt_succ hlt)
      have IH := ih (k + 1) c j' hj2 hcol2 hafter2
      have hne : (rowWritesFrom R mk fm (k + 1) xs).filter (cellPred R c) ≠ [] := by
        intro hnil; rw [hnil] at IH; cases IH
      rw [rowWritesFrom]
      cases hpx : cellPred R c (⟨R, colOf k, mk x, fm⟩ : CellWrite) with
      | false =>
        rw [List.filter_cons_of_neg (by simp [hpx]), IH]
        rfl
      | true =>
        rw [List.filter_cons_of_pos hpx, getLast?_cons_of_ne_nil _ hne, IH]
        rfl

theorem mem_recordWrites_row {n : Nat} {d : Data} {w : CellWrite}
    (h : w ∈ recordWrites n d) : w.row = n := by
  rw [recordWrites_eq] at h
  rcases List.mem_cons.mp h with h1 | h2
  · subst h1; rfl
  · exact (rowWritesFrom_row_col h2).1

theorem mem_dataWrites_row :
    ∀ {data : List Data} {n : Nat} {w : CellWrite}, w ∈ dataWrites n data → n ≤ w.row := by
  intro data
  induction data with
  | nil => intro n w h; cases h
  | cons d rest ih =>
    intro n w h
    rcases List.mem_append.mp h with h1 | h2
    · exact (mem_recordWrites_row h1).ge
    · exact Nat.le_of_succ_le (ih h2)

theorem dataWrites_filter_nil_of_lt {p : CellWrite → Bool} {data : List Data} {n r : Nat}
    (hp : ∀ w, p w = true → w.row = r) (h : r < n) :
    (dataWrites n data).filter p = [] := by
  apply filter_nil_of_pred_false
  intro w hw
  cases hpw : p w with
  | false => rfl
  | true =>
    have h1 := hp w hpw
    have h2 := mem_dataWrites_row hw
    omega

theorem recordWrites_filter_nil_of_ne {p : CellWrite → Bool} {d : Data} {n r : Nat}
    (hp : ∀ w, p w = true → w.row = r) (h : r ≠ n) :
    (recordWrites n d).filter p = [] := by
  apply filter_nil_of_pred_false
  intro w hw
  cases hpw : p w with
  | false => rfl
  | true =>
    have h1 := hp w hpw
    have h2 := mem_recordWrites_row hw
    omega

theorem dataWrites_filter_hit {p : CellWrite → Bool} :
    ∀ (data : List Data) (n t : Nat) (ht : t < data.length),
      (∀ w, p w = true → w.row = n + t) →
      (dataWrites n data).filter p = (recordWrites (n + t) (data.get ⟨t, ht⟩)).filter p := by
  intro data
  induction data with
  | nil => intro n t ht; exact absurd ht (Nat.not_lt_zero t)
  | cons d rest ih =>
    intro n t ht hp
    match t with
    | 0 =>
      rw [dataWrites, List.filter_append,
        dataWrites_filter_nil_of_lt (r := n) (by simpa using hp) (Nat.lt_succ_self n),
        List.append_nil]
      rfl
    | t' + 1 =>
      have ht2 : t' < rest.length := by simp only [List.length_cons] at ht; omega
      have hstep := ih (n + 1) t' ht2 (by intro w hw; rw [hp w hw]; omega)
      rw [dataWrites, List.filter_append,
        recordWrites_filter_nil_of_ne (r := n + (t' + 1)) hp (by omega),
        List.nil_append, hstep, show n + 1 + t' = n + (t' + 1) by omega]
      rfl

theorem colOf_small {i : Nat} (h : i ≤ 65534) : colOf i = i + 1 := by
  unfold colOf
  rw [Nat.mod_eq_of_lt (by omega), Nat.mod_eq_of_lt (by omega)]

theorem colOf_lt (i : Nat) : colOf i < 65536 :=
  Nat.mod_lt _ (by decide)

theorem colOf_add_65536 (i : Nat) : colOf (i + 65536) = colOf i := by
  unfold colOf
  rw [Nat.add_mod_right]

theorem freshSheet_cons (d : Data) (rest : List Data) (sheet_name : String) :
    freshSheet (d :: rest) sheet_name =
      ⟨sheet_name,
        ⟨0, 0, CellContent.str "test-name", boldFormat⟩ ::
          (headerWrites d.row_data ++ dataWrites 1 (d :: rest)),
        [(0, 20)]⟩ := rfl

theorem headerWrites_filter_col_zero {rows : List Row} (hlen : rows.length ≤ 65535) :
    (headerWrites rows).filter (cellPred 0 0) = [] := by
  rw [headerWrites_eq]
  apply filter_nil_of_pred_false
  intro w hw
  obtain ⟨-, i, hi, hc⟩ := rowWritesFrom_row_col hw
  cases hpw : cellPred 0 0 w with
  | false => rfl
  | true =>
    obtain ⟨-, hc0⟩ := cellPred_eq_true.mp hpw
    rw [hc, Nat.zero_add, colOf_small (by omega)] at hc0
    exact absurd hc0 (Nat.succ_ne_zero i)

theorem dataWrites_filter_row_zero {data : List Data} {c : Nat} :
    (dataWrites 1 data).filter (cellPred 0 c) = [] :=
  dataWrites_filter_nil_of_lt (r := 0) (fun _ hw => (cellPred_eq_true.mp hw).1) Nat.one_pos

/-- Claim C3: exporting the empty record list into a fresh workbook creates
the worksheet with the requested name, writes no content at all to it, and
returns success rather than an error. -/
theorem C3_empty_export_succeeds (sheet_name : String) :
    (write_output_to_sheet Workbook.new [] sheet_name).2 = none ∧
    (freshSheet [] sheet_name).name = sheet_name ∧
    (freshSheet [] sheet_name).writes = [] :=
  ⟨rfl, rfl, rfl⟩

/-- Claim C4: when the workbook already holds a worksheet whose name equals
sheet_name, write_output_to_sheet fails with the duplicate-sheet-name error,
for any record list; on a fresh workbook, with no collision possible, the
call succeeds for any record list and any sheet name. -/
theorem C4_duplicate_sheet_name (wb : Workbook) (data : List Data) (sheet_name : String)
    (hdup : ∃ s ∈ wb.sheets, s.name = sheet_name) :
    (write_output_to_sheet wb data sheet_name).2 = some XlsxError.DuplicateSheetName ∧
    (write_output_to_sheet Workbook.new data sheet_name).2 = none := by
  have hany : wb.sheets.any (fun s => s.name == sheet_name) = true := by
    obtain ⟨s, hs, hn⟩ := hdup
    exact List.any_eq_true.mpr ⟨s, hs, by simp [hn]⟩
  constructor
  · unfold write_output_to_sheet
    rw [hany]
    rfl
  · cases data with
    | nil => rfl
    | cons d rest => rfl

theorem C4_duplicate_sheet_name_witness :
    (∃ s ∈ (Workbook.mk [⟨"S", [], []⟩]).sheets, s.name = "S") ∧
    (write_output_to_sheet (Workbook.mk [⟨"S", [], []⟩]) [] "S").2
      = some XlsxError.DuplicateSheetName :=
  ⟨⟨⟨"S", [], []⟩, by simp, rfl⟩,
    (C4_duplicate_sheet_name (Workbook.mk [⟨"S", [], []⟩]) [] "S"
      ⟨⟨"S", [], []⟩, by simp, rfl⟩).1⟩

/-- Claim C9 (implicit): the export is not atomic on the duplicate-name
failure.  When the sheet-name assignment fails, the workbook has already
gained a new worksheet carrying the library default name, so the workbook
state changed even though an error is reported. -/
theorem C9_not_atomic_on_duplicate (wb : Workbook) (data : List Data) (sheet_name : String)
    (hdup : ∃ s ∈ wb.sheets, s.name = sheet_name) :
    (write_output_to_sheet wb data sheet_name).2 = some XlsxError.DuplicateSheetName ∧
    (write_output_to_sheet wb data sheet_name).1.sheets
      = wb.sheets ++ [⟨defaultSheetName wb, [], []⟩] := by
  have hany : wb.sheets.any (fun s => s.name == sheet_name) = true := by
    obtain ⟨s, hs, hn⟩ := hdup
    exact List.any_eq_true.mpr ⟨s, hs, by simp [hn]⟩
  unfold write_output_to_sheet
  rw [hany]
  exact ⟨rfl, rfl⟩

theorem C9_not_atomic_on_duplicate_witness :
    (∃ s ∈ (Workbook.mk [⟨"S", [], []⟩]).sheets, s.name = "S") ∧
    (write_output_to_sheet (Workbook.mk [⟨"S", [], []⟩]) [] "S").1.sheets
      = [⟨"S", [], []⟩] ++ [⟨"Sheet2", [], []⟩] :=
  ⟨⟨⟨"S", [], []⟩, by simp, rfl⟩,
    (C9_not_atomic_on_duplicate (Workbook.mk [⟨"S", [], []⟩]) [] "S"
      ⟨⟨"S", [], []⟩, by simp, rfl⟩).2⟩

/-- Claim C7, counterexample: an export of the empty record list is a
successful export call, yet no column width is set on the created worksheet,
because the function returns at src/process.rs line 23 before reaching the
set_column_width call of line 45.  So not every successful export sets
column 0 to width 20. -/
theorem C7_column_width_counterexample :
    (write_output_to_sheet Workbook.new [] "S").2 = none ∧
    (freshSheet [] "S").colWidths ≠ [(0, 20)] :=
  ⟨rfl, by decide⟩

/-- Claim C7, amended: for every successful export call on a non-empty
record list, column 0 of the created worksheet is set to a fixed width of 20
character-units and no other column width is set; an export of an empty
record list succeeds but leaves every column at the default width. -/
theorem C7_column_width (data : List Data) (sheet_name : String) (hne : data ≠ []) :
    (write_output_to_sheet Workbook.new data sheet_name).2 = none ∧
    (freshSheet data sheet_name).colWidths = [(0, 20)] := by
  cases data with
  | nil => exact absurd rfl hne
  | cons d rest => exact ⟨rfl, rfl⟩

theorem C7_column_width_witness :
    (([⟨"A", []⟩] : List Data) ≠ []) ∧
    (freshSheet [⟨"A", []⟩] "S").colWidths = [(0, 20)] :=
  ⟨List.cons_ne_nil _ _, (C7_column_width [⟨"A", []⟩] "S" (List.cons_ne_nil _ _)).2⟩

/-- Claim C1, amended: for every non-empty record list whose first record
carries at most 65535 measurement rows, exporting into a fresh workbook
leaves cell (0,0) holding the literal string "test-name" and, for each index
i below the first record's row count, cell (0, i+1) holding that record's
i-th header, every header-row cell carrying the bold, center-aligned format.
The bound is forced by the u16 cast of src/process.rs line 29: with 65536 or
more rows the column index wraps and the header row overwrites itself. -/
theorem C1_header_row (records : List Data) (sheet_name : String)
    (hne : records ≠ [])
    (hlen : records.headI.row_data.length ≤ 65535) :
    cellAt (freshSheet records sheet_name) 0 0
      = some ⟨0, 0, CellContent.str "test-name", boldFormat⟩ ∧
    ∀ i (hi : i < records.headI.row_data.length),
      cellAt (freshSheet records sheet_name) 0 (i + 1)
        = some ⟨0, i + 1,
            CellContent.str (records.headI.row_data.get ⟨i, hi⟩).header,
            boldFormat⟩ := by
  cases records with
  | nil => exact absurd rfl hne
  | cons d rest =>
    simp only [List.headI_cons] at hlen ⊢
    rw [freshSheet_cons]
    simp only [cellAt]
    constructor
    · rw [List.filter_cons_of_pos rfl, List.filter_append,
        headerWrites_filter_col_zero hlen, dataWrites_filter_row_zero]
      rfl
    · intro i hi
      rw [List.filter_cons_of_neg (by simp [cellPred]), List.filter_append,
        dataWrites_filter_row_zero, List.append_nil, headerWrites_eq]
      exact rowWritesFrom_filter_getLast d.row_data 0 (i + 1) i hi
        (by rw [Nat.zero_add, colOf_small (by omega)])
        (by intro i2 hgt hlt
            rw [Nat.zero_add, colOf_small (by omega)]
            omega)

theorem C1_header_row_witness :
    (([⟨"A", [⟨"P", (1.5 : Float)⟩]⟩] : List Data) ≠ []) ∧
    cellAt (freshSheet [⟨"A", [⟨"P", (1.5 : Float)⟩]⟩] "S") 0 0
      = some ⟨0, 0, CellContent.str "test-name", boldFormat⟩ :=
  ⟨List.cons_ne_nil _ _,
    (C1_header_row [⟨"A", [⟨"P", (1.5 : Float)⟩]⟩] "S" (List.cons_ne_nil _ _)
      (by decide)).1⟩

/-- A record with 65536 measurement rows, exercising the u16 column wrap. -/
def bigRows : List Row := List.replicate 65536 ⟨"h", 0.0⟩

/-- A single-record batch whose row_data has 65536 entries. -/
def bigData : Data := ⟨"A", bigRows⟩

theorem bigRows_length : bigRows.length = 65536 :=
  show (List.replicate 65536 (⟨"h", 0.0⟩ : Row)).length = 65536 from
    List.length_replicate 65536 _

/-- Claim C1, counterexample: on a record with 65536 rows the u16 cast wraps,
the header of entry 65535 is written at column (65535 + 1) mod 2^16 = 0, on
top of the test-name cell, so cell (0,0) of the exported sheet does not hold
the literal string "test-name". -/
theorem C1_header_row_counterexample :
    cellAt (freshSheet [bigData] "S") 0 0
      ≠ some ⟨0, 0, CellContent.str "test-name", boldFormat⟩ := by
  have hj : (65535 : Nat) < bigRows.length := by rw [bigRows_length]; omega
  have hlast : ((headerWrites bigData.row_data).filter (cellPred 0 0)).getLast?
      = some ⟨0, 0, CellContent.str "h", boldFormat⟩ := by
    rw [show bigData.row_data = bigRows from rfl, headerWrites_eq]
    have hmain := @rowWritesFrom_filter_getLast 0
      (fun r => CellContent.str r.header) boldFormat
      bigRows 0 0 65535 hj
      (by decide)
      (by intro i2 hgt hlt
          rw [bigRows_length] at hlt
          omega)
    rw [hmain]
    have hget : bigRows.get ⟨65535, hj⟩ = (⟨"h", 0.0⟩ : Row) :=
      List.eq_of_mem_replicate
        (show bigRows.get ⟨65535, hj⟩ ∈ List.replicate 65536 (⟨"h", 0.0⟩ : Row) from
          List.get_mem _ _ _)
    rw [hget]
  have hfne : (headerWrites bigData.row_data).filter (cellPred 0 0) ≠ [] := by
    intro h0
    rw [h0] at hlast
    cases hlast
  have hcell : cellAt (freshSheet [bigData] "S") 0 0
      = some ⟨0, 0, CellContent.str "h", boldFormat⟩ := by
    rw [show ([bigData] : List Data) = bigData :: [] from rfl, freshSheet_cons]
    simp only [cellAt]
    rw [List.filter_cons_of_pos rfl, List.filter_append, dataWrites_filter_row_zero,
      List.append_nil, getLast?_cons_of_ne_nil _ hfne, hlast]
  rw [hcell]
  intro heq
  injection heq with h1
  injection h1 with hrow hcol hcontent hfmt
  injection hcontent with hstr
  exact absurd hstr (by decide)

theorem rowWritesFrom_filter_col_zero {R : Nat} {mk : Row → CellContent} {fm : CellFormat}
    {rows : List Row} (hlen : rows.length ≤ 65535) :
    (rowWritesFrom R mk fm 0 rows).filter (cellPred R 0) = [] := by
  apply filter_nil_of_pred_false
  intro w hw
  obtain ⟨-, i, hi, hc⟩ := rowWritesFrom_row_col hw
  cases hpw : cellPred R 0 w with
  | false => rfl
  | true =>
    obtain ⟨-, hc0⟩ := cellPred_eq_true.mp hpw
    rw [hc, Nat.zero_add, colOf_small (by omega)] at hc0
    exact absurd hc0 (Nat.succ_ne_zero i)

/-- Claim C2, amended: for every record list in which each record carries at
most 65535 measurement rows, exporting into a fresh workbook writes, for each
record position t, cell (t+1, 0) holding that record's test_name with the
center-aligned non-bold format, and cell (t+1, c+1) holding the value of that
record's own entry c with the center-aligned two-decimal number format; data
rows appear in input order (record t is worksheet row t+1).  The bound is
forced by the u16 cast of src/process.rs line 39: with 65536 or more entries
a value write wraps back onto column 0 of its own row. -/
theorem C2_data_rows (records : List Data) (sheet_name : String)
    (hlen : ∀ d ∈ records, d.row_data.length ≤ 65535) :
    ∀ t (ht : t < records.length),
      cellAt (freshSheet records sheet_name) (t + 1) 0
        = some ⟨t + 1, 0, CellContent.str (records.get ⟨t, ht⟩).test_name,
            test_name_format⟩ ∧
      ∀ c (hc : c < (records.get ⟨t, ht⟩).row_data.length),
        cellAt (freshSheet records sheet_name) (t + 1) (c + 1)
          = some ⟨t + 1, c + 1,
              CellContent.num ((records.get ⟨t, ht⟩).row_data.get ⟨c, hc⟩).value,
              default_format⟩ := by
  intro t ht
  cases records with
  | nil => exact absurd ht (Nat.not_lt_zero t)
  | cons d rest =>
    have hlenT : ((d :: rest).get ⟨t, ht⟩).row_data.length ≤ 65535 :=
      hlen _ (List.get_mem _ _ _)
    rw [freshSheet_cons]
    simp only [cellAt]
    constructor
    · have hp0 : ∀ w : CellWrite, cellPred (t + 1) 0 w = true → w.row = 1 + t :=
        fun w hw => ((cellPred_eq_true.mp hw).1).trans (by omega)
      have hdw0 := dataWrites_filter_hit (p := cellPred (t + 1) 0) (d :: rest) 1 t ht hp0
      rw [Nat.add_comm 1 t] at hdw0
      have htw : cellPred (t + 1) 0
          (⟨t + 1, 0, CellContent.str ((d :: rest).get ⟨t, ht⟩).test_name,
            test_name_format⟩ : CellWrite) = true :=
        cellPred_eq_true.mpr ⟨rfl, rfl⟩
      rw [List.filter_cons_of_neg (by simp [cellPred]), List.filter_append,
        headerWrites_eq, rowWritesFrom_filter_ne_row (Nat.succ_ne_zero t),
        List.nil_append, hdw0, recordWrites_eq, List.filter_cons_of_pos htw,
        rowWritesFrom_filter_col_zero hlenT]
      rfl
    · intro c hc
      have hpc : ∀ w : CellWrite, cellPred (t + 1) (c + 1) w = true → w.row = 1 + t :=
        fun w hw => ((cellPred_eq_true.mp hw).1).trans (by omega)
      have hdwc := dataWrites_filter_hit (p := cellPred (t + 1) (c + 1)) (d :: rest) 1 t ht hpc
      rw [Nat.add_comm 1 t] at hdwc
      rw [List.filter_cons_of_neg (by simp [cellPred]), List.filter_append,
        headerWrites_eq, rowWritesFrom_filter_ne_row (Nat.succ_ne_zero t),
        List.nil_append, hdwc, recordWrites_eq,
        List.filter_cons_of_neg (by simp [cellPred])]
      exact rowWritesFrom_filter_getLast _ 0 (c + 1) c hc
        (by rw [Nat.zero_add, colOf_small (by omega)])
        (by intro i2 hgt hlt
            rw [Nat.zero_add, colOf_small (by omega)]
            omega)

theorem C2_data_rows_witness :
    (∀ d ∈ ([⟨"A", [⟨"P", (1.5 : Float)⟩]⟩] : List Data), d.row_data.length ≤ 65535) ∧
    cellAt (freshSheet [⟨"A", [⟨"P", (1.5 : Float)⟩]⟩] "S") 1 0
      = some ⟨1, 0, CellContent.str "A", test_name_format⟩ :=
  ⟨by decide,
    (C2_data_rows [⟨"A", [⟨"P", (1.5 : Float)⟩]⟩] "S" (by decide) 0 (by decide)).1⟩

/-- Claim C2, counterexample: on a record with 65536 entries the u16 cast
wraps, so the value of entry 65535 is written at column (1 + 65535) mod 2^16
= 0 of the same data row, after the test-name write; cell (1, 0) of the
exported sheet therefore holds that number and not the test name. -/
theorem C2_data_rows_counterexample :
    cellAt (freshSheet [bigData] "S") 1 0
      ≠ some ⟨1, 0, CellContent.str "A", test_name_format⟩ := by
  have hj : (65535 : Nat) < bigRows.length := by rw [bigRows_length]; omega
  have hvlast : ((rowWritesFrom 1 (fun r => CellContent.num r.value) default_format
      0 bigRows).filter (cellPred 1 0)).getLast?
      = some ⟨1, 0, CellContent.num 0.0, default_format⟩ := by
    have hmain := @rowWritesFrom_filter_getLast 1
      (fun r => CellContent.num r.value) default_format
      bigRows 0 0 65535 hj
      (by decide)
      (by intro i2 hgt hlt
          rw [bigRows_length] at hlt
          omega)
    rw [hmain]
    have hget : bigRows.get ⟨65535, hj⟩ = (⟨"h", 0.0⟩ : Row) :=
      List.eq_of_mem_replicate
        (show bigRows.get ⟨65535, hj⟩ ∈ List.replicate 65536 (⟨"h", 0.0⟩ : Row) from
          List.get_mem _ _ _)
    rw [hget]
  have hfne : (rowWritesFrom 1 (fun r => CellContent.num r.value) default_format
      0 bigRows).filter (cellPred 1 0) ≠ [] := by
    intro h0
    rw [h0] at hvlast
    cases hvlast
  have hdd : dataWrites 1 [bigData] = recordWrites 1 bigData := by
    rw [dataWrites, dataWrites, List.append_nil]
  have hcell : cellAt (freshSheet [bigData] "S") 1 0
      = some ⟨1, 0, CellContent.num 0.0, default_format⟩ := by
    rw [show ([bigData] : List Data) = bigData :: [] from rfl, freshSheet_cons]
    simp only [cellAt]
    rw [List.filter_cons_of_neg (by simp [cellPred]), List.filter_append,
      headerWrites_eq, rowWritesFrom_filter_ne_row (Nat.one_ne_zero),
      List.nil_append, hdd, recordWrites_eq, List.filter_cons_of_pos rfl,
      show bigData.row_data = bigRows from rfl,
      getLast?_cons_of_ne_nil _ hfne, hvlast]
  rw [hcell]
  intro heq
  injection heq with h1
  injection h1 with hrow hcol hcontent hfmt
  injection hcontent

/-- Claim C6: the exporter never fails on schema-inconsistent records.  For
every non-empty record list whose header sequences differ from the first
record (in content, order, or length), exporting into a fresh workbook still
succeeds; the one header row is built solely from records[0] and worksheet
row t+1 consists exactly of record t's own writes (its test name and its own
values), so unaligned input misaligns the output instead of erroring. -/
theorem C6_no_schema_validation (records : List Data) (sheet_name : String)
    (hne : records ≠ [])
    (hmis : ∃ i, ∃ hi : i < records.length,
      (records.get ⟨i, hi⟩).row_data.map Row.header
        ≠ records.headI.row_data.map Row.header) :
    (write_output_to_sheet Workbook.new records sheet_name).2 = none ∧
    rowFilter (freshSheet records sheet_name) 0
      = ⟨0, 0, CellContent.str "test-name", boldFormat⟩ ::
          headerWrites records.headI.row_data ∧
    ∀ t (ht : t < records.length),
      rowFilter (freshSheet records sheet_name) (t + 1)
        = recordWrites (t + 1) (records.get ⟨t, ht⟩) := by
  cases records with
  | nil => exact absurd rfl hne
  | cons d rest =>
    refine ⟨rfl, ?_, ?_⟩
    · rw [freshSheet_cons]
      simp only [rowFilter, List.headI_cons]
      rw [List.filter_cons_of_pos rfl, List.filter_append]
      have h1 : (headerWrites d.row_data).filter (fun w => w.row == 0)
          = headerWrites d.row_data := by
        apply List.filter_eq_self.mpr
        intro w hw
        rw [headerWrites_eq] at hw
        have hr := (rowWritesFrom_row_col hw).1
        show (w.row == 0) = true
        rw [hr]
        rfl
      have h2 : (dataWrites 1 (d :: rest)).filter (fun w => w.row == 0) = [] :=
        dataWrites_filter_nil_of_lt (r := 0) (fun w hw => by simpa using hw) Nat.one_pos
      rw [h1, h2, List.append_nil]
    · intro t ht
      rw [freshSheet_cons]
      simp only [rowFilter]
      have hp : ∀ w : CellWrite, (w.row == t + 1) = true → w.row = 1 + t := by
        intro w hw
        have hr : w.row = t + 1 := by simpa using hw
        omega
      have hdw := dataWrites_filter_hit (p := fun w => w.row == t + 1) (d :: rest) 1 t ht hp
      rw [Nat.add_comm 1 t] at hdw
      have h1 : (headerWrites d.row_data).filter (fun w => w.row == t + 1) = [] := by
        apply filter_nil_of_pred_false
        intro w hw
        rw [headerWrites_eq] at hw
        have hr := (rowWritesFrom_row_col hw).1
        show (w.row == t + 1) = false
        rw [hr]
        exact beq_eq_false_iff_ne.mpr (Ne.symm (Nat.succ_ne_zero t))
      have h3 : (recordWrites (t + 1) ((d :: rest).get ⟨t, ht⟩)).filter
            (fun w => w.row == t + 1)
          = recordWrites (t + 1) ((d :: rest).get ⟨t, ht⟩) := by
        apply List.filter_eq_self.mpr
        intro w hw
        have hr := mem_recordWrites_row hw
        show (w.row == t + 1) = true
        rw [hr]
        exact beq_self_eq_true _
      rw [List.filter_cons_of_neg (by simp), List.filter_append, h1, List.nil_append,
        hdw, h3]

/-- A two-record batch whose second record has a different header sequence
than the first. -/
def recordsMis : List Data := [⟨"A", [⟨"P", 1.5⟩]⟩, ⟨"B", []⟩]

theorem C6_no_schema_validation_witness :
    (∃ i, ∃ hi : i < recordsMis.length,
      (recordsMis.get ⟨i, hi⟩).row_data.map Row.header
        ≠ recordsMis.headI.row_data.map Row.header) ∧
    (write_output_to_sheet Workbook.new recordsMis "S").2 = none :=
  ⟨⟨1, by decide, by decide⟩,
    (C6_no_schema_validation recordsMis "S" (by simp [recordsMis])
      ⟨1, by decide, by decide⟩).1⟩

theorem rowWritesFrom_get? {R : Nat} {mk : Row → CellContent} {fm : CellFormat} :
    ∀ (rows : List Row) (k j : Nat),
      (rowWritesFrom R mk fm k rows).get? j
        = (rows.get? j).map (fun row => ⟨R, colOf (k + j), mk row, fm⟩) := by
  intro rows
  induction rows with
  | nil => intro k j; cases j <;> rfl
  | cons x xs ih =>
    intro k j
    match j with
    | 0 => rfl
    | j' + 1 =>
      have h := ih (k + 1) j'
      rw [show k + 1 + j' = k + (j' + 1) from by omega] at h
      exact h

/-- Claim C10 (implicit): the exporter computes column positions through a
u16 cast, so entry i of a row_data list lands at column
(i mod 2^16 + 1) mod 2^16.  For a record long enough to contain entry
i + 65536, that later entry is written to exactly the same column as entry i
(in both the header loop and the value loop, where list position j + 1 of
recordWrites is the value write for entry j), and no write ever reaches a
column at or beyond 65536 — later entries wrap around instead of extending
rightwards. -/
theorem C10_u16_column_wrap (d : Data) (R i : Nat)
    (h : i + 65536 < d.row_data.length) :
    colOf (i + 65536) = colOf i ∧
    ((recordWrites R d).get? (i + 65536 + 1)).map CellWrite.col = some (colOf i) ∧
    ((recordWrites R d).get? (i + 1)).map CellWrite.col = some (colOf i) ∧
    ((headerWrites d.row_data).get? (i + 65536)).map CellWrite.col = some (colOf i) ∧
    (∀ w ∈ recordWrites R d, w.col < 65536) := by
  have hv : ∃ v, d.row_data.get? (i + 65536) = some v := ⟨_, List.get?_eq_get h⟩
  obtain ⟨v, hv⟩ := hv
  have hv2 : ∃ v2, d.row_data.get? i = some v2 := ⟨_, List.get?_eq_get (by omega)⟩
  obtain ⟨v2, hv2⟩ := hv2
  refine ⟨colOf_add_65536 i, ?_, ?_, ?_, ?_⟩
  · rw [recordWrites_eq, List.get?_cons_succ, rowWritesFrom_get?, hv]
    simp only [Option.map_some']
    rw [Nat.zero_add, colOf_add_65536]
  · rw [recordWrites_eq, List.get?_cons_succ, rowWritesFrom_get?, hv2]
    simp only [Option.map_some']
    rw [Nat.zero_add]
  · rw [headerWrites_eq, rowWritesFrom_get?, hv]
    simp only [Option.map_some']
    rw [Nat.zero_add, colOf_add_65536]
  · intro w hw
    rw [recordWrites_eq] at hw
    rcases List.mem_cons.mp hw with h1 | h2
    · rw [h1]
      show (0 : Nat) < 65536
      decide
    · obtain ⟨-, i2, -, hc⟩ := rowWritesFrom_row_col h2
      rw [hc]
      exact colOf_lt _

/-- A record whose row_data has 65537 entries, so entry 65536 exists. -/
def bigData2 : Data := ⟨"A", List.replicate 65537 ⟨"h", 0.0⟩⟩

theorem bigData2_length : bigData2.row_data.length = 65537 :=
  show (List.replicate 65537 (⟨"h", 0.0⟩ : Row)).length = 65537 from
    List.length_replicate 65537 _

theorem C10_u16_column_wrap_witness :
    (0 + 65536 < bigData2.row_data.length) ∧ colOf (0 + 65536) = colOf 0 :=
  ⟨by rw [bigData2_length]; omega,
    (C10_u16_column_wrap bigData2 1 0 (by rw [bigData2_length]; omega)).1⟩

theorem scanToMarker_split (marker : String) :
    ∀ (pre : List String) (k : Nat) (body : List String),
      (∀ l ∈ pre, l ≠ marker) →
      scanToMarker marker k (pre ++ marker :: body) = some (k + pre.length, body) := by
  intro pre
  induction pre with
  | nil =>
    intro k body _
    rw [List.nil_append, scanToMarker]
    simp
  | cons l pre ih =>
    intro k body hpre
    have hl : l ≠ marker := hpre l (List.mem_cons_self _ _)
    have hrec := ih (k + 1) body (fun x hx => hpre x (List.mem_cons_of_mem _ hx))
    rw [List.cons_append, scanToMarker, beq_eq_false_iff_ne.mpr hl,
      if_neg Bool.false_ne_true, hrec]
    simp only [List.length_cons]
    rw [show k + 1 + pre.length = k + (pre.length + 1) from by omega]

theorem parseRows_ok (decomp : String → Option (String × Float)) :
    ∀ (body : List String) (ln : Nat),
      (∀ l ∈ body, isBlankLine l = false ∧ (decomp l).isSome = true) →
      parseRows decomp ln body = Except.ok (body.filterMap (rowOfLine decomp)) := by
  intro body
  induction body with
  | nil => intro ln _; rfl
  | cons l rest ih =>
    intro ln hb
    obtain ⟨hblank, hsome⟩ := hb l (List.mem_cons_self _ _)
    have hrec := ih (ln + 1) (fun x hx => hb x (List.mem_cons_of_mem _ hx))
    obtain ⟨p, hp⟩ := Option.isSome_iff_exists.mp hsome
    rw [parseRows, if_neg (by simp [hblank]), hp, hrec,
      List.filterMap_cons_some (by rw [rowOfLine, hp]; rfl)]

theorem filterMap_length_of_isSome {f : String → Option Row} :
    ∀ {body : List String}, (∀ l ∈ body, (f l).isSome = true) →
      (body.filterMap f).length = body.length := by
  intro body
  induction body with
  | nil => intro _; rfl
  | cons l rest ih =>
    intro hb
    obtain ⟨p, hp⟩ := Option.isSome_iff_exists.mp (hb l (List.mem_cons_self _ _))
    rw [List.filterMap_cons_some hp, List.length_cons,
      ih (fun x hx => hb x (List.mem_cons_of_mem _ hx)), List.length_cons]

/-- Claim C5: for raw text consisting of any preamble free of the configured
start marker, then the marker line, then well-formed label/number lines, the
record parser succeeds, discarding everything up to and including the marker,
and returns a Data whose row_data has exactly one Row per body line, in file
order, each carrying the label and the numeric value the tokenization rule
extracts from that line. -/
theorem C5_record_parse (decomp : String → Option (String × Float))
    (file_name : String) (config : ConfigStore) (pre body : List String)
    (hpre : ∀ l ∈ pre, l ≠ config.read_start_header)
    (hbody : ∀ l ∈ body, isBlankLine l = false ∧ (decomp l).isSome = true) :
    read_data_from_file decomp file_name
        (pre ++ config.read_start_header :: body) config
      = Except.ok ⟨fileStem file_name, body.filterMap (rowOfLine decomp)⟩ ∧
    (body.filterMap (rowOfLine decomp)).length = body.length := by
  constructor
  · rw [read_data_from_file, scanToMarker_split config.read_start_header pre 1 body hpre]
    show (match parseRows decomp (1 + pre.length + 1) body with
      | Except.ok rows => Except.ok (⟨fileStem file_name, rows⟩ : Data)
      | Except.error e => Except.error e)
        = Except.ok ⟨fileStem file_name, body.filterMap (rowOfLine decomp)⟩
    rw [parseRows_ok decomp body (1 + pre.length + 1) hbody]
  · exact filterMap_length_of_isSome (fun l hl => by
      obtain ⟨p, hp⟩ := Option.isSome_iff_exists.mp (hbody l hl).2
      rw [rowOfLine, hp]
      rfl)

/-- A trivial tokenization rule used to instantiate the parser theorem. -/
def decompW : String → Option (String × Float) := fun _ => some ("P", 55.3)

theorem C5_record_parse_witness :
    (∀ l ∈ ["preamble junk"], l ≠ (⟨"DATA"⟩ : ConfigStore).read_start_header) ∧
    read_data_from_file decompW "a.txt"
        (["preamble junk"] ++ (⟨"DATA"⟩ : ConfigStore).read_start_header :: ["P 55.3"])
        ⟨"DATA"⟩
      = Except.ok ⟨fileStem "a.txt", ["P 55.3"].filterMap (rowOfLine decompW)⟩ :=
  ⟨by decide,
    (C5_record_parse decompW "a.txt" ⟨"DATA"⟩ ["preamble junk"] ["P 55.3"]
      (by decide)
      (by
        intro l hl
        rw [List.mem_singleton.mp hl]
        exact ⟨by decide, rfl⟩)).1⟩

/-- Claim C8, counterexample: the Row constructor of src/data.rs performs no
validation, so a Row with an empty header is constructible; the claimed
non-emptiness guarantee does not hold. -/
theorem C8_row_header_counterexample : (Row.new "" 0.0).header = "" := rfl

/-- Claim C8, amended: Row::new stores exactly the given header and value;
nothing in the Row type or its constructor requires the header to be
non-empty, so any header string, the empty one included, is accepted. -/
theorem C8_row_constructor (header : String) (value : Float) :
    (Row.new header value).header = header ∧ (Row.new header value).value = value :=
  ⟨rfl, rfl⟩

end Alveo
